import Mathlib

set_option autoImplicit false

/-!
Shallow embedding of `src/plugins/catalog-backend-module-gitlab/src/lib/client.ts`:
the GitLab client's pagination engine (`paginated`), query-string construction
(`listOptionsToQueryString`), request plumbing (`request`, `pagedRequest`) and the
listing operations (`listProjects`, `listUsers`).

JavaScript values appearing in `ListOptions` are modelled by `JSValue`; `null` and
`undefined` are identified (constructor `undef`), as the source only ever
distinguishes them through truthiness, and both are falsy.
-/

/-- A scalar JavaScript value as stored in a `ListOptions` record
(`string | number | boolean | undefined`, plus `null` and `NaN`, which the
pagination engine can write into the `page` field). Numbers are restricted to
integers: every number the source stores into options is an integer or `NaN`. -/
inductive JSValue : Type
  | undef : JSValue
  | nan : JSValue
  | num : Int → JSValue
  | bool : Bool → JSValue
  | str : String → JSValue
  deriving DecidableEq

/-- JavaScript truthiness of a `JSValue` (the `if (options[key])` test). -/
def JSValue.truthy : JSValue → Bool
  | .undef => false
  | .nan => false
  | .num n => n != 0
  | .bool b => b
  | .str s => s != ""

/-- JavaScript `toString()` on the values the source can store into options. -/
def JSValue.jsToString : JSValue → String
  | .undef => "undefined"
  | .nan => "NaN"
  | .num n => toString n
  | .bool b => if b then "true" else "false"
  | .str s => s

/-- `ListOptions`: a string-keyed record of query parameters, modelled as an
association list in key insertion order (the order in which
`for (const key in options)` visits the non-integer-like keys the source uses). -/
abbrev ListOptions : Type := List (String × JSValue)

/-- Property read `options[key]` (`none` when the key is absent). -/
def lookupKey : ListOptions → String → Option JSValue
  | [], _ => none
  | (k, v) :: rest, key => if k = key then some v else lookupKey rest key

/-- JavaScript property assignment `options[key] = v`: updates the value in
place when the key exists (keeping its position) and appends the key at the end
otherwise. -/
def setKey : ListOptions → String → JSValue → ListOptions
  | [], key, v => [(key, v)]
  | (k, w) :: rest, key, v =>
    if k = key then (key, v) :: rest else (k, w) :: setKey rest key v

/-- The UTF-8 bytes of one character (as natural numbers), used to model the
percent-encoding performed by `URLSearchParams` and `encodeURIComponent`. -/
def utf8Bytes (c : Char) : List Nat :=
  let n := c.toNat
  if n < 128 then [n]
  else if n < 2048 then [192 + n / 64, 128 + n % 64]
  else if n < 65536 then [224 + n / 4096, 128 + n / 64 % 64, 128 + n % 64]
  else [240 + n / 262144, 128 + n / 4096 % 64, 128 + n / 64 % 64, 128 + n % 64]

/-- The uppercase hexadecimal digit for `n < 16`. -/
def hexDigitChar (n : Nat) : Char :=
  if n < 10 then Char.ofNat (48 + n) else Char.ofNat (55 + n)

def percentEncodeByte (b : Nat) : List Char :=
  ['%', hexDigitChar (b / 16), hexDigitChar (b % 16)]

/-- Characters kept verbatim by `URLSearchParams` serialization
(application/x-www-form-urlencoded): ASCII alphanumerics and `*-._`. -/
def isFormSafe (c : Char) : Bool :=
  c.isAlphanum || c = '*' || c = '-' || c = '.' || c = '_'

def formEncodeChar (c : Char) : List Char :=
  if c = ' ' then ['+']
  else if isFormSafe c then [c]
  else (utf8Bytes c).flatMap percentEncodeByte

/-- Model of the `URLSearchParams` percent-encoding of one name or value. -/
def formEncode (s : String) : String :=
  String.mk (s.data.flatMap formEncodeChar)

/-- Characters kept verbatim by JavaScript `encodeURIComponent`:
alphanumerics, `-_.!~*()` and the apostrophe (code 39). -/
def isUriSafe (c : Char) : Bool :=
  c.isAlphanum || c = '-' || c = '_' || c = '.' || c = '!' || c = '~' || c = '*' ||
    c.toNat = 39 || c = '(' || c = ')'

/-- Model of JavaScript `encodeURIComponent`. -/
def encodeURIComponent (s : String) : String :=
  String.mk (s.data.flatMap fun c =>
    if isUriSafe c then [c] else (utf8Bytes c).flatMap percentEncodeByte)

/-- The (name, value) pairs appended by the `for (const key in options)` loop of
`listOptionsToQueryString`: a key is appended exactly when its value is truthy,
stringified with `toString()`. -/
def buildSearch : ListOptions → List (String × String)
  | [] => []
  | (k, v) :: rest =>
    if v.truthy then (k, v.jsToString) :: buildSearch rest else buildSearch rest

def pairToQuery (p : String × String) : String :=
  formEncode p.1 ++ "=" ++ formEncode p.2

/-- Model of `URLSearchParams.toString()`: each pair as `name=value`, joined
with `&`. -/
def searchToString : List (String × String) → String
  | [] => ""
  | [p] => pairToQuery p
  | p :: q :: rest => pairToQuery p ++ "&" ++ searchToString (q :: rest)

/-- `listOptionsToQueryString` from the source: serialize the truthy options and
prepend `?` when the result is non-empty. An absent options argument behaves as
the empty record. -/
def listOptionsToQueryString (options : ListOptions) : String :=
  let query := searchToString (buildSearch options)
  if query = "" then "" else "?" ++ query

/-- Whitespace trimmed by the JavaScript `Number()` conversion. -/
def isJsSpace (c : Char) : Bool :=
  c = ' ' || c = '\t' || c = '\n' || c = '\r'

/-- A JavaScript number as it can appear in the `nextPage` field of a
`PagedResponse`: an integer or `NaN`. -/
inductive JSNum : Type
  | num : Int → JSNum
  | nan : JSNum
  deriving DecidableEq

def digitsToNat (cs : List Char) : Nat :=
  cs.foldl (fun a c => a * 10 + (c.toNat - 48)) 0

/-- Model of the JavaScript `Number()` conversion on strings, restricted to
optionally signed decimal integers — the domain of the `x-next-page` header
convention. Surrounding whitespace is trimmed; the empty (or all-whitespace)
string converts to `0`; any other string that is not an optionally signed run
of decimal digits is modelled as `NaN`. -/
def jsNumber (s : String) : JSNum :=
  match (((s.data.dropWhile isJsSpace).reverse.dropWhile isJsSpace).reverse :
      List Char) with
  | [] => .num 0
  | '-' :: cs =>
    if cs ≠ [] ∧ cs.all Char.isDigit then .num (-(digitsToNat cs : Int)) else .nan
  | '+' :: cs =>
    if cs ≠ [] ∧ cs.all Char.isDigit then .num (digitsToNat cs) else .nan
  | cs =>
    if cs ≠ [] ∧ cs.all Char.isDigit then .num (digitsToNat cs) else .nan

/-- One page fetch result (`PagedResponse<T>` in the source): the decoded items
plus the optional next-page number; `none` models `null`/`undefined`, and the
number may be `NaN` (from a non-numeric header). -/
structure PagedResponse (T : Type) : Type where
  items : List T
  nextPage : Option JSNum
  deriving DecidableEq

/-- An HTTP response as the source observes it through node-fetch: success flag,
status, status text, headers and the JSON-decoded body (an array of `T`).
Header lookup is by exact name, as used for `x-next-page`. -/
structure Response (T : Type) : Type where
  ok : Bool
  status : Nat
  statusText : String
  headers : List (String × String)
  jsonBody : List T

def headersGet (headers : List (String × String)) (name : String) : Option String :=
  (headers.find? fun p => p.1 = name).map Prod.snd

/-- The resolved GitLab integration configuration for a target URL. -/
structure Integration : Type where
  apiBaseUrl : String
  baseUrl : String
  host : String

/-- Errors thrown by the client: `InputError` (missing integration
configuration) and plain `Error` (unsupported operation, failed request), each
carrying its message. -/
inductive GLError : Type
  | inputError : String → GLError
  | error : String → GLError
  deriving DecidableEq

/-- `GitLabClient.request`: join the configured API base URL with the endpoint,
perform the transport call, return the raw response when `response.ok` holds and
throw otherwise. The authentication-options merge and the debug log have no
bearing on any claim and are absorbed into the abstract `transport`. -/
def request {T : Type} (cfg : Integration) (transport : String → Response T)
    (endpoint : String) : Except GLError (Response T) :=
  let url := cfg.apiBaseUrl ++ endpoint
  let response := transport url
  if response.ok then .ok response
  else
    .error (.error ("Unexpected response when fetching " ++ url ++
      ". Expected 200 but got " ++ toString response.status ++ " - " ++
      response.statusText))

/-- `GitLabClient.pagedRequest`: append the serialized options to the endpoint,
perform the request, and pair the JSON body with the `x-next-page` header
(`nextPage ? Number(nextPage) : null`: a missing or empty header yields no next
page; a non-empty header is converted with `Number`, so a non-numeric header
yields `NaN`). -/
def pagedRequest {T : Type} (cfg : Integration) (transport : String → Response T)
    (endpoint : String) (options : ListOptions) : Except GLError (PagedResponse T) :=
  let queryString := listOptionsToQueryString options
  match request cfg transport (endpoint ++ queryString) with
  | .error e => .error e
  | .ok response =>
    let nextPage := headersGet response.headers "x-next-page"
    .ok { items := response.jsonBody,
          nextPage :=
            match nextPage with
            | some s => if s ≠ "" then some (jsNumber s) else none
            | none => none }

/-- JavaScript truthiness of the `nextPage` field (the `while (res.nextPage)`
test): `null`/`undefined`, `0` and `NaN` are falsy. -/
def nextTruthy : Option JSNum → Bool
  | none => false
  | some (.num n) => n != 0
  | some .nan => false

/-- The value written into the options by `options.page = res.nextPage`. -/
def nextToJS : Option JSNum → JSValue
  | none => .undef
  | some (.num n) => .num n
  | some .nan => .nan

/-- How one pagination walk ended: normal termination (`done`), a fetch failure
propagated to the consumer (`failed`), or fuel exhaustion (the embedding's bound
on the number of loop iterations; a terminating walk is unaffected once the fuel
is at least its number of fetches). -/
inductive RunOutcome (E : Type) : Type
  | done : RunOutcome E
  | failed : E → RunOutcome E
  | fuelOut : RunOutcome E
  deriving DecidableEq

/-- The `paginated` async generator: repeatedly fetch with the current options,
assign `options.page = res.nextPage`, yield the page's items in order, and loop
while `res.nextPage` is truthy. The embedding returns the trace of the options
each fetch received, the concatenation of all yielded items, and the outcome. -/
def paginatedGo {T E : Type} (request : ListOptions → Except E (PagedResponse T)) :
    Nat → ListOptions → List ListOptions × List T × RunOutcome E
  | 0, _ => ([], [], .fuelOut)
  | fuel + 1, options =>
    match request options with
    | .error e => ([options], [], .failed e)
    | .ok res =>
      if nextTruthy res.nextPage then
        let rest := paginatedGo request fuel (setKey options "page" (nextToJS res.nextPage))
        (options :: rest.1, res.items ++ rest.2.1, rest.2.2)
      else
        ([options], res.items, .done)

/-- The external collaborators of the client: the integration registry
(`integrations.gitlab.byUrl`) and the group-URL classifier.

`parseGroupUrl` — Modelled from the spec: the function is imported from
`./url`, which is not under `src/`; per the spec it "classifies whether the URL
denotes a specific group/namespace ... or the whole instance", so it is kept as
an arbitrary classifier returning the group's full path or `none`. -/
structure ClientEnv : Type where
  integrations : String → Option Integration
  parseGroupUrl : String → String → Option String

/-- `getIntegration`: resolve the target URL or throw an `InputError`. -/
def getIntegration (env : ClientEnv) (url : String) : Except GLError Integration :=
  match env.integrations url with
  | none =>
    .error (.inputError ("No GitLab integration found for URL " ++ url ++
      ", Please add a configuration entry for it under integrations.gitlab."))
  | some integration => .ok integration

/-- The optional `{ inherited?, blocked? }` argument of `listUsers`. -/
structure UserOptions : Type where
  inherited : Option Bool := none
  blocked : Option Bool := none

/-- `listUsers` up to the construction of the generator: the endpoint string and
initial options handed to `paginated`/`pagedRequest`, or the error thrown before
any request is made (both throws happen synchronously, before the generator
performs any fetch). -/
def listUsers (env : ClientEnv) (targetUrl : String) (options : Option UserOptions) :
    Except GLError (String × ListOptions) :=
  match getIntegration env targetUrl with
  | .error e => .error e
  | .ok integration =>
    match env.parseGroupUrl targetUrl integration.baseUrl with
    | some groupFullPath =>
      let inherited := (options.bind UserOptions.inherited).getD true
      let endpoint := "/groups/" ++ encodeURIComponent groupFullPath ++ "/members" ++
        (if inherited then "/all" else "")
      .ok (endpoint, [("per_page", .num 100)] ++
        (if (options.bind UserOptions.blocked).getD false then
          [("blocked", .bool true)] else []))
    | none =>
      if integration.host ≠ "gitlab.com" then
        .error (.error
          "Getting all GitLab instance users is only supported for self-managed hosts.")
      else
        .ok ("/users", [("active", .bool true), ("per_page", .num 100)])

/-- The optional spread `...(options?.last_activity_after && { ... })` of
`listProjects`: the key is included only when present and truthy. -/
def activityOptions (lastActivityAfter : Option String) : ListOptions :=
  match lastActivityAfter with
  | some s => if s ≠ "" then [("last_activity_after", .str s)] else []
  | none => []

/-- `listProjects` up to the construction of the generator: the endpoint and the
initial options handed to `paginated`. A group URL selects the group-projects
endpoint (with `include_subgroups: true`); otherwise the global `/projects`
endpoint is used. -/
def listProjects (env : ClientEnv) (targetUrl : String)
    (lastActivityAfter : Option String) : Except GLError (String × ListOptions) :=
  match getIntegration env targetUrl with
  | .error e => .error e
  | .ok integration =>
    match env.parseGroupUrl targetUrl integration.baseUrl with
    | some groupFullPath =>
      .ok (integration.apiBaseUrl ++ "/groups/" ++ encodeURIComponent groupFullPath ++
        "/projects",
        [("per_page", .num 100), ("include_subgroups", .bool true)] ++
          activityOptions lastActivityAfter)
    | none =>
      .ok ("/projects", [("per_page", .num 100)] ++ activityOptions lastActivityAfter)

/-- The page cursor a convention-following fetch function reads from the
options: an absent, non-numeric or non-positive `page` denotes the first page. -/
def pageIndex (o : ListOptions) : Nat :=
  match lookupKey o "page" with
  | some (.num n) => if 1 ≤ n then n.toNat else 1
  | _ => 1

/-- A fetch function serving a fixed sequence of pages under the remote
convention: page `k` (of `N`) carries the `k`-th item list and reports next
page `k + 1` when `k < N`, and no next page when `k = N`. -/
def servePages {T : Type} (pages : List (List T)) (o : ListOptions) :
    Except Empty (PagedResponse T) :=
  let k := pageIndex o
  .ok { items := pages.getD (k - 1) [],
        nextPage := if k < pages.length then some (.num ((k : Int) + 1)) else none }

/-- A fetch function that serves page 1 (items 10 and 11, next page 2) and
fails on any explicit page request; used to witness failure propagation. -/
def failingFetch : ListOptions → Except String (PagedResponse Nat) := fun o =>
  if lookupKey o "page" = some (.num 2) then .error "network error on page 2"
  else .ok { items := [10, 11], nextPage := some (.num 2) }

/-- A fetch function whose single response reports next page `0`; `0` is
JS-falsy, so the walk stops even though a next page was reported. -/
def zeroNextFetch : ListOptions → Except Unit (PagedResponse Nat) := fun _ =>
  .ok { items := [], nextPage := some (.num 0) }

/-- A fetch function that always reports next page `2`, making the walk request
page 2 repeatedly. -/
def loopFetch : ListOptions → Except Unit (PagedResponse Nat) := fun _ =>
  .ok { items := [], nextPage := some (.num 2) }

/-- A transport whose successful response carries a non-numeric `x-next-page`
header. -/
def nanHeaderTransport : String → Response Nat := fun _ =>
  { ok := true, status := 200, statusText := "OK",
    headers := [("x-next-page", "abc")], jsonBody := [] }

/-- A transport whose successful response carries `x-next-page: 2`. -/
def pageTransport : String → Response Nat := fun _ =>
  { ok := true, status := 200, statusText := "OK",
    headers := [("x-next-page", "2")], jsonBody := [7] }

/-- A transport that always succeeds with an empty body and no headers. -/
def okTransport : String → Response Nat := fun _ =>
  { ok := true, status := 200, statusText := "OK", headers := [], jsonBody := [7] }

/-- A transport that always responds 404. -/
def notFoundTransport : String → Response Nat := fun _ =>
  { ok := false, status := 404, statusText := "Not Found", headers := [],
    jsonBody := [] }

def sampleIntegration : Integration :=
  { apiBaseUrl := "https://gitlab.com/api/v4", baseUrl := "https://gitlab.com",
    host := "gitlab.com" }

def selfManagedIntegration : Integration :=
  { apiBaseUrl := "https://gitlab.example.com/api/v4",
    baseUrl := "https://gitlab.example.com", host := "gitlab.example.com" }

/-- A registry resolving every URL to the gitlab.com integration, with a
classifier that finds no group component. -/
def envInstance : ClientEnv :=
  { integrations := fun _ => some sampleIntegration,
    parseGroupUrl := fun _ _ => none }

/-- A registry resolving every URL to a self-managed integration, no group. -/
def envSelfManaged : ClientEnv :=
  { integrations := fun _ => some selfManagedIntegration,
    parseGroupUrl := fun _ _ => none }

/-- A registry resolving to gitlab.com, with a classifier that finds the group
`group/subgroup`. -/
def envGroup : ClientEnv :=
  { integrations := fun _ => some sampleIntegration,
    parseGroupUrl := fun _ _ => some "group/subgroup" }

/-! ### Helper lemmas -/

theorem lookupKey_setKey_self (o : ListOptions) (key : String) (v : JSValue) :
    lookupKey (setKey o key v) key = some v := by
  induction o with
  | nil => simp [setKey, lookupKey]
  | cons kv rest ih =>
    obtain ⟨k, w⟩ := kv
    by_cases h : k = key
    · simp [setKey, lookupKey, h]
    · simp [setKey, lookupKey, h, ih]

theorem lookupKey_setKey_other (o : ListOptions) (key other : String) (v : JSValue)
    (h : other ≠ key) : lookupKey (setKey o key v) other = lookupKey o other := by
  have h' : key ≠ other := Ne.symm h
  induction o with
  | nil => simp [setKey, lookupKey, h']
  | cons kv rest ih =>
    obtain ⟨k, w⟩ := kv
    by_cases hk : k = key
    · subst hk; simp [setKey, lookupKey, h']
    · by_cases ho : k = other
      · simp [setKey, lookupKey, hk, ho, h]
      · simp [setKey, lookupKey, hk, ho, ih]

theorem pairToQuery_ne_empty (p : String × String) : pairToQuery p ≠ "" := by
  obtain ⟨a, b⟩ := p
  intro h
  have hd := congrArg String.data h
  simp only [pairToQuery, String.data_append] at hd
  simp at hd

theorem searchToString_ne_empty (p : String × String) (rest : List (String × String)) :
    searchToString (p :: rest) ≠ "" := by
  cases rest with
  | nil => exact pairToQuery_ne_empty p
  | cons q rest2 =>
    intro h
    have hd := congrArg String.data h
    simp only [searchToString, String.data_append] at hd
    rcases List.append_eq_nil.mp hd with ⟨hd1, -⟩
    rcases List.append_eq_nil.mp hd1 with ⟨hp, -⟩
    exact pairToQuery_ne_empty p (by cases p; exact congrArg String.mk hp)

theorem searchToString_eq_empty_iff (ps : List (String × String)) :
    searchToString ps = "" ↔ ps = [] := by
  cases ps with
  | nil => simp [searchToString]
  | cons p rest =>
    constructor
    · intro h; exact absurd h (searchToString_ne_empty p rest)
    · intro h; cases h

theorem qmark_append_ne_empty (q : String) : "?" ++ q ≠ "" := by
  intro h
  have hl := congrArg String.length h
  rw [String.length_append] at hl
  have h1 : ("?" : String).length = 1 := rfl
  have h0 : ("" : String).length = 0 := rfl
  omega

theorem buildSearch_eq_filter (o : ListOptions) :
    buildSearch o =
      (o.filter fun kv => kv.2.truthy).map fun kv => (kv.1, kv.2.jsToString) := by
  induction o with
  | nil => rfl
  | cons kv rest ih =>
    obtain ⟨k, v⟩ := kv
    by_cases h : v.truthy
    · simp [buildSearch, h, List.filter_cons, ih]
    · simp [buildSearch, h, List.filter_cons, ih]

theorem queryString_empty_iff (o : ListOptions) :
    searchToString (buildSearch o) = "" ↔ (o.filter fun kv => kv.2.truthy) = [] := by
  rw [searchToString_eq_empty_iff, buildSearch_eq_filter, List.map_eq_nil_iff]

/-! ### C3: query-string construction -/

/-- C3: the serialized query contains exactly the keys whose values are truthy
(stringified, in iteration order); the result is empty exactly when no truthy
key remains, and otherwise starts with `?`; the spec's concrete examples hold. -/
theorem listOptionsToQueryString_spec :
    (∀ o : ListOptions, buildSearch o =
      (o.filter fun kv => kv.2.truthy).map fun kv => (kv.1, kv.2.jsToString)) ∧
    (∀ o : ListOptions, listOptionsToQueryString o = "" ↔
      (o.filter fun kv => kv.2.truthy) = []) ∧
    (∀ o : ListOptions, (o.filter fun kv => kv.2.truthy) ≠ [] →
      ∃ q, listOptionsToQueryString o = "?" ++ q) ∧
    listOptionsToQueryString
      [("per_page", .num 100), ("page", .undef), ("blocked", .bool false)] =
      "?per_page=100" ∧
    listOptionsToQueryString [] = "" ∧
    listOptionsToQueryString [("per_page", .undef), ("page", .undef)] = "" := by
  refine ⟨buildSearch_eq_filter, ?_, ?_, by decide, rfl, by decide⟩
  · intro o
    unfold listOptionsToQueryString
    by_cases h : searchToString (buildSearch o) = ""
    · rw [if_pos h]
      simp [(queryString_empty_iff o).mp h]
    · rw [if_neg h]
      exact ⟨fun habs => absurd habs (qmark_append_ne_empty _),
        fun hf => absurd ((queryString_empty_iff o).mpr hf) h⟩
  · intro o hf
    have h : searchToString (buildSearch o) ≠ "" :=
      fun hh => hf ((queryString_empty_iff o).mp hh)
    exact ⟨searchToString (buildSearch o), by unfold listOptionsToQueryString; rw [if_neg h]⟩

/-- Witness for `listOptionsToQueryString_spec` at a concrete options record. -/
theorem listOptionsToQueryString_spec_witness :
    (listOptionsToQueryString [("per_page", JSValue.num 100)] = "" ↔
      (([("per_page", JSValue.num 100)] : ListOptions).filter
        fun kv => kv.2.truthy) = []) ∧
    (([("per_page", JSValue.num 100)] : ListOptions).filter
      fun kv => kv.2.truthy) ≠ [] ∧
    ∃ q, listOptionsToQueryString [("per_page", JSValue.num 100)] = "?" ++ q :=
  ⟨listOptionsToQueryString_spec.2.1 _, by decide,
    listOptionsToQueryString_spec.2.2.1 _ (by decide)⟩

/-! ### Pagination walk lemmas -/

theorem paginatedGo_head {T E : Type} (f : ListOptions → Except E (PagedResponse T))
    (fuel : Nat) (o : ListOptions) :
    ∃ t, (paginatedGo f (fuel + 1) o).1 = o :: t := by
  cases hf : f o with
  | error e => exact ⟨[], by simp [paginatedGo, hf]⟩
  | ok res =>
    by_cases ht : nextTruthy res.nextPage = true
    · exact ⟨(paginatedGo f fuel (setKey o "page" (nextToJS res.nextPage))).1,
        by simp [paginatedGo, hf, ht]⟩
    · exact ⟨[], by simp [paginatedGo, hf, ht]⟩

theorem paginatedGo_mem_lookup {T E : Type}
    (f : ListOptions → Except E (PagedResponse T)) (key : String)
    (hkey : key ≠ "page") :
    ∀ (fuel : Nat) (o c : ListOptions), c ∈ (paginatedGo f fuel o).1 →
      lookupKey c key = lookupKey o key := by
  intro fuel
  induction fuel with
  | zero => intro o c hc; simp [paginatedGo] at hc
  | succ n ih =>
    intro o c hc
    cases hf : f o with
    | error e =>
      simp [paginatedGo, hf] at hc
      subst hc; rfl
    | ok res =>
      by_cases ht : nextTruthy res.nextPage = true
      · simp [paginatedGo, hf, ht] at hc
        rcases hc with hc | hc
        · subst hc; rfl
        · rw [ih _ _ hc, lookupKey_setKey_other _ _ _ _ hkey]
      · simp [paginatedGo, hf, ht] at hc
        subst hc; rfl

/-! ### C2: failure propagation -/

/-- C2: for a fetch function that succeeds on the initial options with a page
reporting next page 2 and fails on every request for page 2, the walk records
exactly two fetch attempts, yields exactly page 1's items (none after the
failure), and terminates with the same failure. -/
theorem paginated_propagates_failure {T E : Type}
    (f : ListOptions → Except E (PagedResponse T)) (items1 : List T) (e : E)
    (o : ListOptions)
    (h1 : f o = .ok { items := items1, nextPage := some (.num 2) })
    (h2 : ∀ o2, lookupKey o2 "page" = some (.num 2) → f o2 = .error e)
    (fuel : Nat) (hfuel : 2 ≤ fuel) :
    paginatedGo f fuel o = ([o, setKey o "page" (.num 2)], items1, .failed e) := by
  obtain ⟨m, rfl⟩ : ∃ m, fuel = m + 2 := ⟨fuel - 2, by omega⟩
  have h2' : f (setKey o "page" (.num 2)) = .error e :=
    h2 _ (lookupKey_setKey_self o "page" (.num 2))
  show paginatedGo f (m + 1 + 1) o = _
  simp [paginatedGo, h1, h2', nextTruthy, nextToJS]

/-- Witness for `paginated_propagates_failure` using `failingFetch`. -/
theorem paginated_propagates_failure_witness :
    failingFetch [] = .ok { items := [10, 11], nextPage := some (.num 2) } ∧
    (∀ o2, lookupKey o2 "page" = some (.num 2) →
      failingFetch o2 = .error "network error on page 2") ∧
    2 ≤ 2 ∧
    paginatedGo failingFetch 2 [] =
      ([[], [("page", JSValue.num 2)]], [10, 11], .failed "network error on page 2") := by
  have h2 : ∀ o2, lookupKey o2 "page" = some (.num 2) →
      failingFetch o2 = .error "network error on page 2" := by
    intro o2 h; simp [failingFetch, h]
  refine ⟨rfl, h2, le_rfl, ?_⟩
  have h := paginated_propagates_failure failingFetch [10, 11]
    "network error on page 2" [] rfl h2 2 le_rfl
  simpa using h

/-! ### C7: request success and failure -/

/-- C7: when the transport's response is ok, `request` returns it unmodified;
otherwise `request` throws an error — rather than returning the failed
response — whose message contains the requested URL and the observed status
code. -/
theorem request_ok_spec {T : Type} (cfg : Integration)
    (transport : String → Response T) (endpoint : String) :
    ((transport (cfg.apiBaseUrl ++ endpoint)).ok = true →
      request cfg transport endpoint = .ok (transport (cfg.apiBaseUrl ++ endpoint))) ∧
    ((transport (cfg.apiBaseUrl ++ endpoint)).ok = false →
      ∃ msg, request cfg transport endpoint = .error (.error msg) ∧
        (∃ a b, msg = a ++ ((cfg.apiBaseUrl ++ endpoint) ++ b)) ∧
        (∃ a b, msg =
          a ++ (toString (transport (cfg.apiBaseUrl ++ endpoint)).status ++ b))) := by
  constructor
  · intro hok
    simp [request, hok]
  · intro hnot
    refine ⟨"Unexpected response when fetching " ++ (cfg.apiBaseUrl ++ endpoint) ++
      ". Expected 200 but got " ++
      toString (transport (cfg.apiBaseUrl ++ endpoint)).status ++ " - " ++
      (transport (cfg.apiBaseUrl ++ endpoint)).statusText, ?_, ?_, ?_⟩
    · simp [request, hnot]
    · exact ⟨"Unexpected response when fetching ",
        ". Expected 200 but got " ++
          toString (transport (cfg.apiBaseUrl ++ endpoint)).status ++ " - " ++
          (transport (cfg.apiBaseUrl ++ endpoint)).statusText,
        by simp [String.append_assoc]⟩
    · exact ⟨"Unexpected response when fetching " ++ (cfg.apiBaseUrl ++ endpoint) ++
        ". Expected 200 but got ",
        " - " ++ (transport (cfg.apiBaseUrl ++ endpoint)).statusText,
        by simp [String.append_assoc]⟩

/-- Witness for `request_ok_spec`, applied to a succeeding and a failing
transport. -/
theorem request_ok_spec_witness :
    ((okTransport (sampleIntegration.apiBaseUrl ++ "/projects")).ok = true ∧
      request sampleIntegration okTransport "/projects" =
        .ok (okTransport (sampleIntegration.apiBaseUrl ++ "/projects"))) ∧
    ((notFoundTransport (sampleIntegration.apiBaseUrl ++ "/projects")).ok = false ∧
      ∃ msg, request sampleIntegration notFoundTransport "/projects" =
          .error (.error msg) ∧
        (∃ a b, msg = a ++ ((sampleIntegration.apiBaseUrl ++ "/projects") ++ b)) ∧
        (∃ a b, msg = a ++ (toString (notFoundTransport
          (sampleIntegration.apiBaseUrl ++ "/projects")).status ++ b))) :=
  ⟨⟨rfl, (request_ok_spec sampleIntegration okTransport "/projects").1 rfl⟩,
   ⟨rfl, (request_ok_spec sampleIntegration notFoundTransport "/projects").2 rfl⟩⟩

theorem pageIndex_setKey (o : ListOptions) (k : Nat) :
    pageIndex (setKey o "page" (.num ((k : Int) + 1))) = k + 1 := by
  have h1 : (1 : Int) ≤ (k : Int) + 1 := by omega
  simp [pageIndex, lookupKey_setKey_self, h1]

theorem servePages_walk {T : Type} (pages : List (List T)) :
    ∀ (fuel k : Nat) (o : ListOptions), 1 ≤ k → k ≤ pages.length →
      pageIndex o = k → pages.length + 1 - k ≤ fuel →
      ∃ calls : List ListOptions,
        paginatedGo (servePages pages) fuel o =
          (calls, (pages.drop (k - 1)).flatten, .done) ∧
        calls.map pageIndex = List.range' k (pages.length + 1 - k) := by
  intro fuel
  induction fuel with
  | zero => intro k o hk1 hkN hpi hfuel; omega
  | succ n ih =>
    intro k o hk1 hkN hpi hfuel
    have hklt : k - 1 < pages.length := by omega
    have hserve : servePages pages o = .ok
        { items := pages.getD (k - 1) [],
          nextPage :=
            if k < pages.length then some (.num ((k : Int) + 1)) else none } := by
      simp [servePages, hpi]
    have hitems : (pages.drop (k - 1)).flatten =
        pages.getD (k - 1) [] ++ (pages.drop k).flatten := by
      rw [List.getD_eq_getElem _ _ hklt, List.drop_eq_getElem_cons hklt,
        List.flatten_cons]
      have hk' : k - 1 + 1 = k := by omega
      rw [hk']
    by_cases hlast : k < pages.length
    · obtain ⟨calls2, hrun2, hmap2⟩ := ih (k + 1)
        (setKey o "page" (.num ((k : Int) + 1))) (by omega) (by omega)
        (pageIndex_setKey o k) (by omega)
      have hne : ¬((k : Int) + 1 = 0) := by omega
      refine ⟨o :: calls2, ?_, ?_⟩
      · rw [hitems]
        simp only [paginatedGo, hserve]
        simp only [if_pos hlast, nextTruthy, nextToJS]
        rw [if_pos (by simp [hne])]
        simp only [hrun2]
        have hk2 : k + 1 - 1 = k := by omega
        simp [hk2]
      · simp only [List.map_cons, hpi, hmap2]
        have h1 : pages.length + 1 - k = (pages.length - k) + 1 := by omega
        have h2 : pages.length + 1 - (k + 1) = pages.length - k := by omega
        rw [h1, h2, List.range'_succ]
    · refine ⟨[o], ?_, ?_⟩
      · rw [hitems]
        simp only [paginatedGo, hserve]
        simp only [if_neg hlast, nextTruthy]
        have hdrop : pages.drop k = [] := by
          have hk' : k = pages.length := by omega
          rw [hk']; exact List.drop_length pages
        simp [hdrop]
      · have h1 : pages.length + 1 - k = 1 := by omega
        have hr1 : List.range' k 1 = [k] := rfl
        simp [hpi, h1, hr1]

/-! ### C1: the engine yields all pages -/

/-- C1: for pages following the next-page convention (page `k` reports `k + 1`,
the last page reports none), the engine — started on options without a page
cursor, with fuel for at least `N` fetches — yields exactly the concatenation
of all `N` pages' items in order, invokes the fetch function exactly `N` times,
and terminates normally (in particular, a single page fetches exactly once). -/
theorem paginated_yields_all_pages {T : Type} (pages : List (List T))
    (hN : 0 < pages.length) (o : ListOptions) (ho : lookupKey o "page" = none)
    (fuel : Nat) (hfuel : pages.length ≤ fuel) :
    (paginatedGo (servePages pages) fuel o).2.1 = pages.flatten ∧
    ((paginatedGo (servePages pages) fuel o).1).length = pages.length ∧
    (paginatedGo (servePages pages) fuel o).2.2 = .done := by
  have hpi : pageIndex o = 1 := by simp [pageIndex, ho]
  obtain ⟨calls, hrun, hmap⟩ := servePages_walk pages fuel 1 o le_rfl hN hpi (by omega)
  have hlen : calls.length = pages.length := by
    have hl := congrArg List.length hmap
    simpa [List.length_range'] using hl
  rw [hrun]
  exact ⟨by simp, by simpa using hlen, rfl⟩

/-- Witness for `paginated_yields_all_pages` at two concrete pages (and with it
the single-page case via `pages.length = 2` fetches). -/
theorem paginated_yields_all_pages_witness :
    0 < ([[1, 2], [3]] : List (List Nat)).length ∧
    lookupKey [] "page" = none ∧
    ([[1, 2], [3]] : List (List Nat)).length ≤ 2 ∧
    ((paginatedGo (servePages [[1, 2], [3]]) 2 []).2.1 =
        ([[1, 2], [3]] : List (List Nat)).flatten ∧
      ((paginatedGo (servePages [[1, 2], [3]]) 2 []).1).length =
        ([[1, 2], [3]] : List (List Nat)).length ∧
      (paginatedGo (servePages [[1, 2], [3]]) 2 []).2.2 = .done) :=
  ⟨by decide, rfl, by decide,
    paginated_yields_all_pages [[1, 2], [3]] (by decide) [] rfl 2 (by decide)⟩

theorem paginatedGo_chain {T E : Type} (f : ListOptions → Except E (PagedResponse T)) :
    ∀ (fuel : Nat) (o : ListOptions) (pre post : List ListOptions)
      (o1 o2 : ListOptions),
      (paginatedGo f fuel o).1 = pre ++ o1 :: o2 :: post →
      ∃ r, f o1 = .ok r ∧ nextTruthy r.nextPage = true ∧
        o2 = setKey o1 "page" (nextToJS r.nextPage) := by
  intro fuel
  induction fuel with
  | zero =>
    intro o pre post o1 o2 h
    simp [paginatedGo] at h
  | succ n ih =>
    intro o pre post o1 o2 h
    cases hf : f o with
    | error e =>
      have hcalls : (paginatedGo f (n + 1) o).1 = [o] := by simp [paginatedGo, hf]
      rw [hcalls] at h
      have hl := congrArg List.length h
      simp [List.length_append] at hl
      omega
    | ok res =>
      by_cases ht : nextTruthy res.nextPage = true
      · have hcalls : (paginatedGo f (n + 1) o).1 =
            o :: (paginatedGo f n (setKey o "page" (nextToJS res.nextPage))).1 := by
          simp [paginatedGo, hf, ht]
        rw [hcalls] at h
        cases pre with
        | nil =>
          simp only [List.nil_append] at h
          obtain ⟨h1, h2⟩ := List.cons_eq_cons.mp h
          obtain ⟨m, rfl⟩ : ∃ m, n = m + 1 := by
            cases n with
            | zero => simp [paginatedGo] at h2
            | succ m => exact ⟨m, rfl⟩
          obtain ⟨t, hhead⟩ :=
            paginatedGo_head f m (setKey o "page" (nextToJS res.nextPage))
          rw [hhead] at h2
          obtain ⟨h3, -⟩ := List.cons_eq_cons.mp h2
          subst h1
          exact ⟨res, hf, ht, h3.symm⟩
        | cons p pre2 =>
          simp only [List.cons_append] at h
          obtain ⟨-, h2⟩ := List.cons_eq_cons.mp h
          exact ih _ pre2 post o1 o2 h2
      · have hcalls : (paginatedGo f (n + 1) o).1 = [o] := by simp [paginatedGo, hf, ht]
        rw [hcalls] at h
        have hl := congrArg List.length h
        simp [List.length_append] at hl
        omega

theorem paginatedGo_done_last {T E : Type}
    (f : ListOptions → Except E (PagedResponse T)) :
    ∀ (fuel : Nat) (o : ListOptions), (paginatedGo f fuel o).2.2 = .done →
      ∃ oL r, ((paginatedGo f fuel o).1).getLast? = some oL ∧ f oL = .ok r ∧
        nextTruthy r.nextPage = false := by
  intro fuel
  induction fuel with
  | zero => intro o h; simp [paginatedGo] at h
  | succ n ih =>
    intro o h
    cases hf : f o with
    | error e => simp [paginatedGo, hf] at h
    | ok res =>
      by_cases ht : nextTruthy res.nextPage = true
      · have hout :
            (paginatedGo f n (setKey o "page" (nextToJS res.nextPage))).2.2 = .done := by
          have h' := h
          simp only [paginatedGo, hf, ht, if_true] at h'
          exact h'
        obtain ⟨oL, r, hlast, hfr, hnt⟩ := ih _ hout
        refine ⟨oL, r, ?_, hfr, hnt⟩
        have hcalls : (paginatedGo f (n + 1) o).1 =
            o :: (paginatedGo f n (setKey o "page" (nextToJS res.nextPage))).1 := by
          simp [paginatedGo, hf, ht]
        rw [hcalls]
        cases hr : (paginatedGo f n (setKey o "page" (nextToJS res.nextPage))).1 with
        | nil => rw [hr] at hlast; simp at hlast
        | cons a t => rw [hr] at hlast; rw [List.getLast?_cons_cons]; exact hlast
      · have hcalls : (paginatedGo f (n + 1) o).1 = [o] := by simp [paginatedGo, hf, ht]
        refine ⟨o, res, ?_, hf, ?_⟩
        · rw [hcalls]; rfl
        · simpa using ht

/-! ### C8: walk invariant -/

/-- C8 (amended): in every pagination walk, (i) whenever two fetches are
adjacent in the trace, the later received the earlier's options with `page` set
to the next-page value reported by the earlier (necessarily JS-truthy)
response — so `options.page` follows each reported next-page value and a falsy
next page can only end the trace; (ii) a normally terminated walk's final
response reported a JS-falsy next-page value (absent, `0` or `NaN`) — so the
walk terminates normally exactly when the most recent response's next page is
falsy, not merely when it is absent; (iii) for a fetch function following the
page `k` → next page `k + 1` convention, no page number is fetched twice. -/
theorem paginated_walk_invariant {T E : Type}
    (f : ListOptions → Except E (PagedResponse T)) (fuel : Nat) (o : ListOptions) :
    (∀ (pre post : List ListOptions) (o1 o2 : ListOptions),
      (paginatedGo f fuel o).1 = pre ++ o1 :: o2 :: post →
      ∃ r, f o1 = .ok r ∧ nextTruthy r.nextPage = true ∧
        o2 = setKey o1 "page" (nextToJS r.nextPage)) ∧
    ((paginatedGo f fuel o).2.2 = .done →
      ∃ oL r, ((paginatedGo f fuel o).1).getLast? = some oL ∧ f oL = .ok r ∧
        nextTruthy r.nextPage = false) ∧
    (∀ pages : List (List T), 0 < pages.length → pages.length ≤ fuel →
      lookupKey o "page" = none →
      (((paginatedGo (servePages pages) fuel o).1).map pageIndex).Nodup) := by
  refine ⟨fun pre post o1 o2 h => paginatedGo_chain f fuel o pre post o1 o2 h,
    paginatedGo_done_last f fuel o, ?_⟩
  intro pages hN hfuel hp
  have hpi : pageIndex o = 1 := by simp [pageIndex, hp]
  obtain ⟨calls, hrun, hmap⟩ := servePages_walk pages fuel 1 o le_rfl hN hpi (by omega)
  rw [hrun]
  simpa [hmap] using List.nodup_range' 1 (pages.length + 1 - 1)

/-- Witness for `paginated_walk_invariant` at a one-page walk. -/
theorem paginated_walk_invariant_witness :
    (paginatedGo (servePages [[5]]) 1 []).2.2 = RunOutcome.done ∧
    (∃ oL r, ((paginatedGo (servePages [[5]]) 1 []).1).getLast? = some oL ∧
      servePages [[5]] oL = .ok r ∧ nextTruthy r.nextPage = false) ∧
    0 < ([[5]] : List (List Nat)).length ∧
    ([[5]] : List (List Nat)).length ≤ 1 ∧
    lookupKey [] "page" = none ∧
    (((paginatedGo (servePages [[5]]) 1 []).1).map pageIndex).Nodup :=
  ⟨rfl, (paginated_walk_invariant (servePages [[5]]) 1 []).2.1 rfl,
    by decide, by decide, rfl,
    (paginated_walk_invariant (servePages ([[5]] : List (List Nat))) 1 []).2.2
      [[5]] (by decide) (by decide) rfl⟩

/-- C8 counterexample: (i) a response reporting next page `0` (a reported but
JS-falsy next page) ends the walk after one fetch, refuting "terminates exactly
when a response reports no next page"; (ii) a fetch function that keeps
reporting next page `2` makes the walk request page 2 twice, refuting the
unconditional "no page number is fetched twice". -/
theorem paginated_walk_counterexample :
    (paginatedGo zeroNextFetch 5 [] =
      ([([] : ListOptions)], ([] : List Nat), RunOutcome.done) ∧
      zeroNextFetch [] = .ok { items := [], nextPage := some (.num 0) } ∧
      some (JSNum.num 0) ≠ (none : Option JSNum)) ∧
    (paginatedGo loopFetch 3 []).1 =
      [[], [("page", JSValue.num 2)], [("page", JSValue.num 2)]] :=
  ⟨⟨rfl, rfl, by decide⟩, rfl⟩

/-! ### C4: pagedRequest -/

/-- C4 (amended): on a successful response, `pagedRequest` returns the decoded
JSON body as the items; the next-page value is absent when the header is
missing or empty, and is the `Number`-parsed header value when the header is
non-empty — hence `NaN`, a present (non-absent) though JS-falsy value, for a
non-numeric header. -/
theorem pagedRequest_spec {T : Type} (cfg : Integration)
    (transport : String → Response T) (endpoint : String) (options : ListOptions)
    (u : String)
    (hu : u = cfg.apiBaseUrl ++ (endpoint ++ listOptionsToQueryString options))
    (hok : (transport u).ok = true) :
    (headersGet (transport u).headers "x-next-page" = none →
      pagedRequest cfg transport endpoint options =
        .ok { items := (transport u).jsonBody, nextPage := none }) ∧
    (headersGet (transport u).headers "x-next-page" = some "" →
      pagedRequest cfg transport endpoint options =
        .ok { items := (transport u).jsonBody, nextPage := none }) ∧
    (∀ s, headersGet (transport u).headers "x-next-page" = some s → s ≠ "" →
      pagedRequest cfg transport endpoint options =
        .ok { items := (transport u).jsonBody, nextPage := some (jsNumber s) }) := by
  subst hu
  have hreq : request cfg transport (endpoint ++ listOptionsToQueryString options) =
      .ok (transport (cfg.apiBaseUrl ++ (endpoint ++ listOptionsToQueryString options))) := by
    simp [request, hok]
  refine ⟨?_, ?_, ?_⟩
  · intro hh; simp [pagedRequest, hreq, hh]
  · intro hh; simp [pagedRequest, hreq, hh]
  · intro s hh hs; simp [pagedRequest, hreq, hh, hs]

/-- Witness for `pagedRequest_spec` with a numeric `x-next-page: 2` header. -/
theorem pagedRequest_spec_witness :
    "https://gitlab.com/api/v4/users" =
      sampleIntegration.apiBaseUrl ++ ("/users" ++ listOptionsToQueryString []) ∧
    (pageTransport "https://gitlab.com/api/v4/users").ok = true ∧
    headersGet (pageTransport "https://gitlab.com/api/v4/users").headers
      "x-next-page" = some "2" ∧
    "2" ≠ "" ∧
    pagedRequest sampleIntegration pageTransport "/users" [] =
      .ok { items := (pageTransport "https://gitlab.com/api/v4/users").jsonBody,
            nextPage := some (jsNumber "2") } := by
  refine ⟨by decide, rfl, rfl, by decide, ?_⟩
  exact (pagedRequest_spec sampleIntegration pageTransport "/users" []
    "https://gitlab.com/api/v4/users" (by decide) rfl).2.2 "2" rfl (by decide)

/-- C4 counterexample: a successful response whose `x-next-page` header is the
non-numeric string `abc` makes `pagedRequest` return `nextPage = some NaN` — a
present, non-absent value — refuting that the next-page value is absent
whenever the header is non-numeric. -/
theorem pagedRequest_nan_counterexample :
    pagedRequest sampleIntegration nanHeaderTransport "/projects" [] =
      .ok { items := ([] : List Nat), nextPage := some JSNum.nan } ∧
    some JSNum.nan ≠ (none : Option JSNum) :=
  ⟨rfl, by decide⟩

/-! ### C5: instance-wide listUsers host gate -/

/-- C5: with a resolved integration and no group component, `listUsers`
succeeds with the instance-wide `/users` endpoint when the resolved host is
`gitlab.com`, and throws the unsupported-operation error for any other host.
The model carries no transport at all, so both branches are decided before any
network request. -/
theorem listUsers_instance_host_gate (env : ClientEnv) (url : String)
    (intg : Integration) (uopts : Option UserOptions)
    (hres : env.integrations url = some intg)
    (hgrp : env.parseGroupUrl url intg.baseUrl = none) :
    (intg.host = "gitlab.com" →
      listUsers env url uopts =
        .ok ("/users", [("active", .bool true), ("per_page", .num 100)])) ∧
    (intg.host ≠ "gitlab.com" →
      listUsers env url uopts = .error (.error
        "Getting all GitLab instance users is only supported for self-managed hosts.")) := by
  constructor
  · intro hhost
    simp [listUsers, getIntegration, hres, hgrp, hhost]
  · intro hhost
    simp [listUsers, getIntegration, hres, hgrp, hhost]

/-- Witness for `listUsers_instance_host_gate`, applied to a gitlab.com and a
self-managed registry. -/
theorem listUsers_instance_host_gate_witness :
    (envInstance.integrations "https://gitlab.com/x" = some sampleIntegration ∧
      envInstance.parseGroupUrl "https://gitlab.com/x" sampleIntegration.baseUrl = none ∧
      sampleIntegration.host = "gitlab.com" ∧
      listUsers envInstance "https://gitlab.com/x" none =
        .ok ("/users", [("active", .bool true), ("per_page", .num 100)])) ∧
    (envSelfManaged.integrations "https://gitlab.example.com/x" =
        some selfManagedIntegration ∧
      envSelfManaged.parseGroupUrl "https://gitlab.example.com/x"
        selfManagedIntegration.baseUrl = none ∧
      selfManagedIntegration.host ≠ "gitlab.com" ∧
      listUsers envSelfManaged "https://gitlab.example.com/x" none = .error (.error
        "Getting all GitLab instance users is only supported for self-managed hosts.")) :=
  ⟨⟨rfl, rfl, rfl,
    (listUsers_instance_host_gate envInstance "https://gitlab.com/x"
      sampleIntegration none rfl rfl).1 rfl⟩,
   ⟨rfl, rfl, by decide,
    (listUsers_instance_host_gate envSelfManaged "https://gitlab.example.com/x"
      selfManagedIntegration none rfl rfl).2 (by decide)⟩⟩

/-! ### C6: listProjects endpoint selection -/

/-- C6: with a matching group namespace, `listProjects` directs its page
requests at the group-projects endpoint for that group and every fetch of the
walk carries `include_subgroups=true` in its options; with no matching
namespace it uses the global `/projects` endpoint. -/
theorem listProjects_endpoint_selection (env : ClientEnv) (url : String)
    (intg : Integration) (laa : Option String)
    (hres : env.integrations url = some intg) :
    (∀ g, env.parseGroupUrl url intg.baseUrl = some g →
      ∃ opts, listProjects env url laa =
          .ok (intg.apiBaseUrl ++ "/groups/" ++ encodeURIComponent g ++ "/projects",
            opts) ∧
        lookupKey opts "include_subgroups" = some (.bool true) ∧
        ∀ (T E : Type) (f : ListOptions → Except E (PagedResponse T)) (fuel : Nat)
          (c : ListOptions), c ∈ (paginatedGo f fuel opts).1 →
            lookupKey c "include_subgroups" = some (.bool true)) ∧
    (env.parseGroupUrl url intg.baseUrl = none →
      ∃ opts, listProjects env url laa = .ok ("/projects", opts)) := by
  have hincl : lookupKey ([("per_page", JSValue.num 100),
      ("include_subgroups", JSValue.bool true)] ++ activityOptions laa)
      "include_subgroups" = some (.bool true) := by
    have h1 : ("per_page" : String) ≠ "include_subgroups" := by decide
    simp [lookupKey, h1]
  constructor
  · intro g hg
    refine ⟨[("per_page", JSValue.num 100), ("include_subgroups", JSValue.bool true)] ++
      activityOptions laa, ?_, hincl, ?_⟩
    · simp [listProjects, getIntegration, hres, hg]
    · intro T E f fuel c hc
      rw [paginatedGo_mem_lookup f "include_subgroups" (by decide) fuel _ c hc]
      exact hincl
  · intro hg
    refine ⟨[("per_page", JSValue.num 100)] ++ activityOptions laa, ?_⟩
    simp [listProjects, getIntegration, hres, hg]

/-- Witness for `listProjects_endpoint_selection` on a group and a non-group
registry. -/
theorem listProjects_endpoint_selection_witness :
    (envGroup.integrations "https://gitlab.com/group/subgroup" =
        some sampleIntegration ∧
      envGroup.parseGroupUrl "https://gitlab.com/group/subgroup"
        sampleIntegration.baseUrl = some "group/subgroup" ∧
      (∃ opts, listProjects envGroup "https://gitlab.com/group/subgroup" none =
          .ok (sampleIntegration.apiBaseUrl ++ "/groups/" ++
            encodeURIComponent "group/subgroup" ++ "/projects", opts) ∧
        lookupKey opts "include_subgroups" = some (.bool true) ∧
        ∀ (T E : Type) (f : ListOptions → Except E (PagedResponse T)) (fuel : Nat)
          (c : ListOptions), c ∈ (paginatedGo f fuel opts).1 →
            lookupKey c "include_subgroups" = some (.bool true))) ∧
    (envInstance.integrations "https://gitlab.com" = some sampleIntegration ∧
      envInstance.parseGroupUrl "https://gitlab.com" sampleIntegration.baseUrl =
        none ∧
      ∃ opts, listProjects envInstance "https://gitlab.com" none =
        .ok ("/projects", opts)) :=
  ⟨⟨rfl, rfl,
    (listProjects_endpoint_selection envGroup "https://gitlab.com/group/subgroup"
      sampleIntegration none rfl).1 "group/subgroup" rfl⟩,
   ⟨rfl, rfl,
    (listProjects_endpoint_selection envInstance "https://gitlab.com"
      sampleIntegration none rfl).2 rfl⟩⟩

/-! ### C9: implicit active-users filter -/

/-- C9 (implicit): every instance-wide `listUsers` call starts with
`active=true` (alongside `per_page=100`) in its initial options, and every
fetch of the resulting walk still carries `active=true` — an active-users
filter the spec never states. -/
theorem listUsers_instance_always_active (env : ClientEnv) (url : String)
    (intg : Integration) (uopts : Option UserOptions)
    (hres : env.integrations url = some intg)
    (hgrp : env.parseGroupUrl url intg.baseUrl = none)
    (hhost : intg.host = "gitlab.com") :
    ∃ opts, listUsers env url uopts = .ok ("/users", opts) ∧
      lookupKey opts "active" = some (.bool true) ∧
      lookupKey opts "per_page" = some (.num 100) ∧
      ∀ (T E : Type) (f : ListOptions → Except E (PagedResponse T)) (fuel : Nat)
        (c : ListOptions), c ∈ (paginatedGo f fuel opts).1 →
          lookupKey c "active" = some (.bool true) := by
  refine ⟨[("active", .bool true), ("per_page", .num 100)], ?_, by decide, by decide, ?_⟩
  · simp [listUsers, getIntegration, hres, hgrp, hhost]
  · intro T E f fuel c hc
    rw [paginatedGo_mem_lookup f "active" (by decide) fuel _ c hc]
    decide

/-- Witness for `listUsers_instance_always_active`. -/
theorem listUsers_instance_always_active_witness :
    envInstance.integrations "https://gitlab.com" = some sampleIntegration ∧
    envInstance.parseGroupUrl "https://gitlab.com" sampleIntegration.baseUrl = none ∧
    sampleIntegration.host = "gitlab.com" ∧
    ∃ opts, listUsers envInstance "https://gitlab.com" none = .ok ("/users", opts) ∧
      lookupKey opts "active" = some (.bool true) ∧
      lookupKey opts "per_page" = some (.num 100) ∧
      ∀ (T E : Type) (f : ListOptions → Except E (PagedResponse T)) (fuel : Nat)
        (c : ListOptions), c ∈ (paginatedGo f fuel opts).1 →
          lookupKey c "active" = some (.bool true) :=
  ⟨rfl, rfl, rfl,
    listUsers_instance_always_active envInstance "https://gitlab.com"
      sampleIntegration none rfl rfl rfl⟩

/-! ### C10: implicit inherited default -/

/-- C10 (implicit): in a group-scoped `listUsers` call, `inherited` defaults to
true: the `/members/all` endpoint (direct plus inherited members) is selected
whenever `inherited` is not explicitly false — in particular when the options
or the field are absent — and the plain `/members` endpoint is selected exactly
when `inherited` is explicitly false; the two endpoints always differ. -/
theorem listUsers_group_inherited_default (env : ClientEnv) (url : String)
    (intg : Integration) (g : String) (uopts : Option UserOptions)
    (hres : env.integrations url = some intg)
    (hgrp : env.parseGroupUrl url intg.baseUrl = some g) :
    (uopts.bind UserOptions.inherited ≠ some false →
      ∃ opts, listUsers env url uopts =
        .ok ("/groups/" ++ encodeURIComponent g ++ "/members" ++ "/all", opts)) ∧
    (uopts.bind UserOptions.inherited = some false →
      ∃ opts, listUsers env url uopts =
        .ok ("/groups/" ++ encodeURIComponent g ++ "/members", opts)) ∧
    (∀ a : String, a ++ "/all" ≠ a) := by
  refine ⟨?_, ?_, ?_⟩
  · intro h
    have hin : (uopts.bind UserOptions.inherited).getD true = true := by
      cases hb : uopts.bind UserOptions.inherited with
      | none => rfl
      | some b =>
        cases b with
        | false => exact absurd hb h
        | true => rfl
    refine ⟨[("per_page", JSValue.num 100)] ++
      (if (uopts.bind UserOptions.blocked).getD false then
        [("blocked", JSValue.bool true)] else []), ?_⟩
    simp [listUsers, getIntegration, hres, hgrp, hin]
  · intro h
    have hin : (uopts.bind UserOptions.inherited).getD true = false := by rw [h]; rfl
    refine ⟨[("per_page", JSValue.num 100)] ++
      (if (uopts.bind UserOptions.blocked).getD false then
        [("blocked", JSValue.bool true)] else []), ?_⟩
    simp [listUsers, getIntegration, hres, hgrp, hin, String.append_empty]
  · intro a habs
    have hl := congrArg String.length habs
    rw [String.length_append] at hl
    have h4 : ("/all" : String).length = 4 := rfl
    omega

/-- Witness for `listUsers_group_inherited_default`, applied with absent
options and with explicit `inherited := false`. -/
theorem listUsers_group_inherited_default_witness :
    envGroup.integrations "https://gitlab.com/group/subgroup" =
      some sampleIntegration ∧
    envGroup.parseGroupUrl "https://gitlab.com/group/subgroup"
      sampleIntegration.baseUrl = some "group/subgroup" ∧
    ((none : Option UserOptions).bind UserOptions.inherited ≠ some false ∧
      ∃ opts, listUsers envGroup "https://gitlab.com/group/subgroup" none =
        .ok ("/groups/" ++ encodeURIComponent "group/subgroup" ++ "/members" ++
          "/all", opts)) ∧
    ((some { inherited := some false } : Option UserOptions).bind
        UserOptions.inherited = some false ∧
      ∃ opts, listUsers envGroup "https://gitlab.com/group/subgroup"
          (some { inherited := some false }) =
        .ok ("/groups/" ++ encodeURIComponent "group/subgroup" ++ "/members",
          opts)) :=
  ⟨rfl, rfl,
    ⟨by decide,
      (listUsers_group_inherited_default envGroup "https://gitlab.com/group/subgroup"
        sampleIntegration "group/subgroup" none rfl rfl).1 (by decide)⟩,
    ⟨rfl,
      (listUsers_group_inherited_default envGroup "https://gitlab.com/group/subgroup"
        sampleIntegration "group/subgroup" (some { inherited := some false })
        rfl rfl).2.1 rfl⟩⟩
